import Mathlib

/-!
Verification development for the LCATS repository: a shallow embedding of the
glue code of the two main notebooks (corpus loading, text chunking, embedding
generation, FAISS retrieval, prompt assembly, completion, JSON-output parsing
and scene extraction), together with theorems settling the frozen claims.

External services (the OpenAI embeddings and chat APIs, the tiktoken encoder,
the JSON parser of the standard library, the FAISS index and the filesystem
walk) are modelled as explicit functional parameters; the code of the
repository itself is translated line by line.  Machine floats that only flow
through the code unchanged are modelled as exact integers.
-/

namespace LCATS

/-- Normalisation of one bound of a Python slice `xs[a:b]` on a list of
length `n`: negative indices count from the end and both bounds clamp. -/
def pyIndex (n : Nat) (i : Int) : Nat :=
  if i < 0 then (max 0 ((n : Int) + i)).toNat else min i.toNat n

/-- Python slice `xs[a:b]` with step 1. -/
def pySlice {α : Type} (xs : List α) (a b : Int) : List α :=
  (xs.take (pyIndex xs.length b)).drop (pyIndex xs.length a)

/-- Python `xs[i]`: negative indices count from the end, out-of-range raises
(modelled as `none`). -/
def pyListGet {α : Type} (xs : List α) (i : Int) : Option α :=
  if 0 ≤ i then xs.get? i.toNat
  else if 0 ≤ i + (xs.length : Int) then xs.get? (i + (xs.length : Int)).toNat
  else none

/-- Helper for `splitWords`: accumulates the current word (reversed) while
scanning the character list. -/
def splitWsAux : List Char → List Char → List String
  | [], acc => if acc = [] then [] else [String.mk acc.reverse]
  | c :: rest, acc =>
    if c.isWhitespace then
      (if acc = [] then [] else [String.mk acc.reverse]) ++ splitWsAux rest []
    else
      splitWsAux rest (c :: acc)

/-- Python `text.split()` with no argument: split on runs of whitespace,
dropping empty words. -/
def splitWords (text : String) : List String :=
  splitWsAux text.toList []

/-- One element of the list returned by `chunk_text` in 02_extractors:
the dict with keys chunk_index, start_word, end_word and text. -/
structure Chunk where
  chunk_index : Nat
  start_word : Int
  end_word : Int
  text : String

/-- A default `Chunk`, used only as the default of `List.getD`. -/
def emptyChunk : Chunk :=
  { chunk_index := 0, start_word := 0, end_word := 0, text := "" }

/-- The while loop of `chunk_text`, with an explicit fuel bound: `none` means
the fuel ran out before the loop condition `start < len(words)` failed.
`start` is an integer because the Python loop variable may leave `Nat`
when `overlap > max_tokens`. -/
def chunkTextLoop (words : List String) (maxTokens overlap : Nat) :
    Int → Nat → Nat → Option (List Chunk)
  | _, _, 0 => none
  | start, idx, fuel + 1 =>
    if start < (words.length : Int) then
      let chunk := pySlice words start (start + (maxTokens : Int))
      match chunkTextLoop words maxTokens overlap
          (start + (maxTokens : Int) - (overlap : Int)) (idx + 1) fuel with
      | some rest =>
          some ({ chunk_index := idx, start_word := start,
                  end_word := start + (chunk.length : Int),
                  text := String.intercalate " " chunk } :: rest)
      | none => none
    else
      some []

/-- `chunk_text` of 02_extractors.  The fuel `len(words) + 1` is enough for
every terminating run (each iteration advances `start` by at least one word
when `overlap < max_tokens`). -/
def chunk_text (text : String) (maxTokens overlap : Nat) : Option (List Chunk) :=
  chunkTextLoop (splitWords text) maxTokens overlap 0 0 ((splitWords text).length + 1)

/-- First occurrence of the list `sep` inside a list: returns the part before
the occurrence and the part after it. -/
def splitFirst {α : Type} [DecidableEq α] (sep : List α) : List α → Option (List α × List α)
  | [] => none
  | x :: rest =>
    if (x :: rest).take sep.length = sep then
      some ([], (x :: rest).drop sep.length)
    else
      match splitFirst sep rest with
      | some (pre, post) => some (x :: pre, post)
      | none => none

/-- Python `text.split(sep)` for a fixed separator, with fuel; when the fuel
runs out the remaining text is returned as the final piece.  Fuel
`len(text) + 1` always suffices for a non-empty separator. -/
def pySplitF {α : Type} [DecidableEq α] (sep : List α) : Nat → List α → List (List α)
  | 0, s => [s]
  | fuel + 1, s =>
    match splitFirst sep s with
    | some (pre, post) => pre :: pySplitF sep fuel post
    | none => [s]

/-- `chunk_text_for_embeddings` of 04_rag_expt: `text.split("\n\n")`,
on the character-list model of strings. -/
def chunk_text_for_embeddings (text : List Char) : List (List Char) :=
  pySplitF ['\n', '\n'] (text.length + 1) text

/-- Index of the first occurrence of `c`, as in Python `s.find(c)` before
the translation of a missing occurrence to -1. -/
def firstIdx {α : Type} [DecidableEq α] (c : α) : List α → Option Nat
  | [] => none
  | x :: xs => if x = c then some 0 else (firstIdx c xs).map (fun i => i + 1)

/-- Index of the last occurrence of `c`, as in Python `s.rfind(c)` before
the translation of a missing occurrence to -1. -/
def lastIdx {α : Type} [DecidableEq α] (c : α) : List α → Option Nat
  | [] => none
  | x :: xs =>
    match lastIdx c xs with
    | some i => some (i + 1)
    | none => if x = c then some 0 else none

/-- `try_parse_json` of 02_extractors, over an abstract JSON parser
`parse` (the model of `json.loads`, `none` standing for a raised
`JSONDecodeError`).  The fallback slice runs from the find of the first
opening brace to one past the rfind of the last closing brace, with Python
slicing semantics, and the bare except of the source turns a second
failure into `None`. -/
def try_parse_json {J : Type} (parse : List Char → Option J) (output : List Char) : Option J :=
  match parse output with
  | some v => some v
  | none =>
    let s : Int := match firstIdx '{' output with | some i => (i : Int) | none => -1
    let e : Int := (match lastIdx '}' output with | some j => (j : Int) | none => -1) + 1
    match parse (pySlice output s e) with
    | some v => some v
    | none => none

/-- Written from the words of claim C8: the substring of `output` from the
first opening brace through the last closing brace, empty when either
brace is missing. -/
def specBraceSpan (output : List Char) : List Char :=
  match firstIdx '{' output, lastIdx '}' output with
  | some i, some j => (output.drop i).take (j + 1 - i)
  | _, _ => []

/-- First-success cascade on options, used to state claim C8. -/
def optFirst {J : Type} (a b : Option J) : Option J :=
  match a with
  | some v => some v
  | none => b

/-- Python values as returned by the JSON parser, for the scene-extraction
pipeline of 02_extractors. -/
inductive PyVal : Type where
  | pyNone : PyVal
  | pyBool : Bool → PyVal
  | pyInt : Int → PyVal
  | pyStr : String → PyVal
  | pyList : List PyVal → PyVal
  | pyDict : List (String × PyVal) → PyVal

/-- Python truthiness. -/
def truthy : PyVal → Bool
  | PyVal.pyNone => false
  | PyVal.pyBool b => b
  | PyVal.pyInt n => decide (n ≠ 0)
  | PyVal.pyStr s => decide (s ≠ "")
  | PyVal.pyList xs => !xs.isEmpty
  | PyVal.pyDict kvs => !kvs.isEmpty

/-- Python `v == s` for a string literal `s`: true only on equal strings. -/
def pyEqStr (v : PyVal) (s : String) : Bool :=
  match v with
  | PyVal.pyStr t => decide (t = s)
  | _ => false

/-- Python substring test `sub in s`. -/
def strHasSub (s sub : String) : Bool :=
  if sub = "" then true else (splitFirst sub.toList s.toList).isSome

/-- Python `key in v` for a string `key`: key test on dicts, membership on
lists, substring test on strings, TypeError otherwise. -/
def pyContains (v : PyVal) (key : String) : Except String Bool :=
  match v with
  | PyVal.pyDict kvs => Except.ok (kvs.any (fun kv => decide (kv.1 = key)))
  | PyVal.pyList xs => Except.ok (xs.any (fun x => pyEqStr x key))
  | PyVal.pyStr s => Except.ok (strHasSub s key)
  | _ => Except.error "TypeError: argument is not iterable"

/-- Python `v[key]` for a string `key`: dict lookup or KeyError on dicts,
TypeError on every other value. -/
def pyGetItemStr (v : PyVal) (key : String) : Except String PyVal :=
  match v with
  | PyVal.pyDict kvs =>
    match kvs.find? (fun kv => decide (kv.1 = key)) with
    | some kv => Except.ok kv.2
    | none => Except.error ("KeyError: " ++ key)
  | _ => Except.error "TypeError: value is not subscriptable by a string key"

/-- Python dict assignment `d[key] = val`: replace in place or append. -/
def setKey (key : String) (val : PyVal) : List (String × PyVal) → List (String × PyVal)
  | [] => [(key, val)]
  | kv :: rest => if kv.1 = key then (kv.1, val) :: rest else kv :: setKey key val rest

/-- Python `v[key] = val` for a string `key`: only dicts support it. -/
def pySetItemStr (v : PyVal) (key : String) (val : PyVal) : Except String PyVal :=
  match v with
  | PyVal.pyDict kvs => Except.ok (PyVal.pyDict (setKey key val kvs))
  | _ => Except.error "TypeError: value is not subscriptable by a string key"

/-- Python iteration over a value: elements of a list, keys of a dict,
characters of a string, TypeError otherwise. -/
def pyIter : PyVal → Except String (List PyVal)
  | PyVal.pyList xs => Except.ok xs
  | PyVal.pyDict kvs => Except.ok (kvs.map (fun kv => PyVal.pyStr kv.1))
  | PyVal.pyStr s => Except.ok (s.toList.map (fun ch => PyVal.pyStr (String.mk [ch])))
  | _ => Except.error "TypeError: value is not iterable"

/-- One chat message, as the dicts passed to the OpenAI chat APIs. -/
structure ChatMsg where
  role : String
  content : String

/-- `build_prompt` of 02_extractors. -/
def build_prompt (chunk : String) : List ChatMsg :=
  [{ role := "system",
     content := "You are a literary analyst trained to identify narrative scenes." },
   { role := "user",
     content := "Analyze the following text and identify narrative scenes or interstitial elements. For each scene, describe the time, place, characters, and type (dramatic, sequel, interstitial). Return output in JSON with a top-level key \x27events\x27:\n\n" ++ chunk }]

/-- The inner for loop of `extract_scenes_from_text`: assign
`event["chunk_index"]` on every event, stopping at the first TypeError. -/
def tagEvents (idx : Int) : List PyVal → Except String (List PyVal)
  | [] => Except.ok []
  | e :: rest =>
    match pySetItemStr e "chunk_index" (PyVal.pyInt idx) with
    | Except.error err => Except.error err
    | Except.ok tagged =>
      match tagEvents idx rest with
      | Except.error err => Except.error err
      | Except.ok others => Except.ok (tagged :: others)

/-- The chunk loop of `extract_scenes_from_text`; `api` models
`call_openai_api` and `parse` models `json.loads` inside
`try_parse_json`.  An `Except.error` is a Python exception escaping the
function. -/
def extractLoop (parse : List Char → Option PyVal) (api : List ChatMsg → List Char) :
    List Chunk → Except String (List PyVal)
  | [] => Except.ok []
  | chunk :: rest =>
    match try_parse_json parse (api (build_prompt chunk.text)) with
    | none => extractLoop parse api rest
    | some parsed =>
      if truthy parsed then
        match pyContains parsed "events" with
        | Except.error e => Except.error e
        | Except.ok hasEvents =>
          if hasEvents then
            match pyGetItemStr parsed "events" with
            | Except.error e => Except.error e
            | Except.ok events =>
              match pyIter events with
              | Except.error e => Except.error e
              | Except.ok eventList =>
                match tagEvents (chunk.chunk_index : Int) eventList with
                | Except.error e => Except.error e
                | Except.ok tagged =>
                  match extractLoop parse api rest with
                  | Except.error e => Except.error e
                  | Except.ok restScenes => Except.ok (tagged ++ restScenes)
          else extractLoop parse api rest
      else extractLoop parse api rest

/-- `extract_scenes_from_text` of 02_extractors, with the default chunking
parameters 800 and 100 of `chunk_text`. -/
def extract_scenes_from_text (parse : List Char → Option PyVal)
    (api : List ChatMsg → List Char) (text : String) : Except String (List PyVal) :=
  match chunk_text text 800 100 with
  | some chunks => extractLoop parse api chunks
  | none => Except.error "chunk_text did not terminate"

/-- Written from the words of the amended claim C10: the scenes contributed
by one chunk, when its parsed response is well shaped. -/
def specScenes (parse : List Char → Option PyVal) (api : List ChatMsg → List Char)
    (c : Chunk) : List PyVal :=
  match try_parse_json parse (api (build_prompt c.text)) with
  | some (PyVal.pyDict kvs) =>
    if truthy (PyVal.pyDict kvs) then
      match kvs.find? (fun kv => decide (kv.1 = "events")) with
      | some (_, PyVal.pyList evs) =>
        evs.map (fun e =>
          match e with
          | PyVal.pyDict ekvs =>
              PyVal.pyDict (setKey "chunk_index" (PyVal.pyInt (c.chunk_index : Int)) ekvs)
          | other => other)
      | _ => []
    else []
  | _ => []

/-- The shape of responses under which the loop body of
`extract_scenes_from_text` cannot raise: the parse failed, or the parsed
value is falsy, or it does not contain the key events, or it is a dict
whose events entry is a list of dicts. -/
def goodParsed : Option PyVal → Prop
  | none => True
  | some v =>
    truthy v = false
    ∨ pyContains v "events" = Except.ok false
    ∨ ∃ kvs evs k, v = PyVal.pyDict kvs
        ∧ kvs.find? (fun kv => decide (kv.1 = "events")) = some (k, PyVal.pyList evs)
        ∧ ∀ e ∈ evs, ∃ ekvs, e = PyVal.pyDict ekvs

/-- One element of `response.data` of the embeddings API. -/
structure EmbDatum where
  embedding : List Int

/-- The response object of `client.embeddings.create`. -/
structure EmbResponse where
  data : List EmbDatum

/-- `get_embeddings_for_text` of 04_rag_expt: `create` models
`client.embeddings.create`, `Except.error` a raised exception.  The
pair returned is the value together with the printed lines: the
`except` clause prints the exception and returns `None`, so no
exception escapes. -/
def get_embeddings_for_text (create : String → Except String EmbResponse)
    (text : String) : Option (List Int) × List String :=
  match create text with
  | Except.error e => (none, ["Error generating embedding: " ++ e])
  | Except.ok response =>
    match response.data with
    | [] => (none, ["Error generating embedding: IndexError: list index out of range"])
    | d :: _ => (some d.embedding, [])

/-- The three fields read out of one parsed JSON story file. -/
structure StoryJson where
  name : String
  body : String
  metadata : String

/-- One entry of the corpus list built by `load_corpus`. -/
structure CorpusEntry where
  name : String
  body : String
  metadata : String

/-- A default `CorpusEntry`, used only as the default of `List.getD`. -/
def emptyStory : CorpusEntry :=
  { name := "", body := "", metadata := "" }

/-- `load_corpus` of 04_rag_expt.  `walk` is the (root, dirs, files) list
produced by `os.walk(data_dir)`, `readJson` models opening a file and
parsing it with `json.load`, and `joinPath` models `os.path.join`. -/
def load_corpus (walk : List (String × List String × List String))
    (readJson : String → StoryJson) (joinPath : String → String → String) :
    List CorpusEntry :=
  walk.foldl
    (fun corpus entry =>
      entry.2.2.foldl
        (fun corpus file =>
          if file.endsWith ".json" then
            let data := readJson (joinPath entry.1 file)
            corpus ++ [{ name := data.name, body := data.body, metadata := data.metadata }]
          else corpus)
        corpus)
    []

/-- `count_tokens` of 04_rag_expt: the length of the token list produced by
the tiktoken encoding for gpt-3.5-turbo, which `encode` models. -/
def count_tokens (encode : String → List Nat) (story_text : String) : Nat :=
  (encode story_text).length

/-- One row of the analysis table built from the corpus. -/
structure AnalysisRow where
  name : String
  length : Nat
  tokens : Nat
  readable_by_gpt_3_5 : Bool
  readable_by_gpt_4o : Bool

/-- A default `AnalysisRow`, used only as the default of `List.getD`. -/
def emptyRow : AnalysisRow :=
  { name := "", length := 0, tokens := 0,
    readable_by_gpt_3_5 := false, readable_by_gpt_4o := false }

/-- The analysis-table loop of 04_rag_expt (the rows of the data frame
`lcats_analysis`, in corpus order). -/
def lcats_analysis (encode : String → List Nat) (corpus : List CorpusEntry) :
    List AnalysisRow :=
  corpus.foldl
    (fun rows story =>
      rows ++ [{ name := story.name,
                 length := story.body.length,
                 tokens := count_tokens encode story.body,
                 readable_by_gpt_3_5 := decide (count_tokens encode story.body < 4096),
                 readable_by_gpt_4o := decide (count_tokens encode story.body < 32768) }])
    []

/-- One entry of `corpus_with_embeddings` in 04_rag_expt. -/
structure ChunkEntry where
  text : String
  embedding : List Int
  metadata : String

/-- A default `ChunkEntry`, used only as the default of `List.getD`. -/
def emptyChunkEntry : ChunkEntry :=
  { text := "", embedding := [], metadata := "" }

/-- The ambient state of the retrieval pipeline of 04_rag_expt: the
embeddings API, the chunked corpus, the search method of the FAISS index
built over the corpus embeddings, and the chat-completion API (already
composed with `.choices[0].message.content`). -/
structure RagEnv where
  create : String → Except String EmbResponse
  corpus_with_embeddings : List ChunkEntry
  search : List Int → Nat → List Int
  complete : List ChatMsg → String

/-- The list comprehension `[corpus_with_embeddings[i] for i in indices[0]]`:
`none` models the IndexError raised by an invalid index. -/
def traverseOpt {α β : Type} (f : α → Option β) : List α → Option (List β)
  | [] => some []
  | x :: xs =>
    match f x, traverseOpt f xs with
    | some y, some ys => some (y :: ys)
    | _, _ => none

/-- `get_chunks_for_query` of 04_rag_expt: embed the query, search the index,
map each returned row index back to the corpus entry at that position.
`none` models a raised exception (failed embedding or bad index). -/
def get_chunks_for_query (env : RagEnv) (query : String) (top_n : Nat) :
    Option (List ChunkEntry) :=
  match (get_embeddings_for_text env.create query).fst with
  | none => none
  | some query_embedding =>
    traverseOpt (pyListGet env.corpus_with_embeddings) (env.search query_embedding top_n)

/-- `generate_context_from_chunks` of 04_rag_expt. -/
def generate_context_from_chunks (chunks : List ChunkEntry) : String :=
  String.intercalate "\n" (chunks.map (fun chunk => chunk.text))

/-- `generate_prompt_from_query_and_context` of 04_rag_expt. -/
def generate_prompt_from_query_and_context (query context : String) : String :=
  "Context:\n" ++ context ++ "\n\nQuestion: " ++ query ++ "\nAnswer:"

/-- `elaborate_query_with_context` of 04_rag_expt: note the default
`top_n = 5` of `get_chunks_for_query`. -/
def elaborate_query_with_context (env : RagEnv) (query : String) : Option String :=
  match get_chunks_for_query env query 5 with
  | some chunks =>
      some (generate_prompt_from_query_and_context query (generate_context_from_chunks chunks))
  | none => none

/-- `generate_completions` of 04_rag_expt: a single user message carrying the
prompt; the `max_tokens` parameter of the source is accepted and unused,
exactly as there. -/
def generate_completions (env : RagEnv) (prompt : String) (maxTokens : Nat) : String :=
  env.complete [{ role := "user", content := prompt }]

/-- `retrieve_and_generate` of 04_rag_expt, with the default
`max_tokens = 100` of `generate_completions`. -/
def retrieve_and_generate (env : RagEnv) (query : String) : Option String :=
  match elaborate_query_with_context env query with
  | some elaborated_query => some (generate_completions env elaborated_query 100)
  | none => none

/-- Squared L2 distance, the metric of `faiss.IndexFlatL2`. -/
def sqL2 (u v : List Int) : Int :=
  (List.zipWith (fun a b => (a - b) * (a - b)) u v).sum

def chunkWitList : List Chunk :=
  [{ chunk_index := 0, start_word := 0, end_word := 2, text := "a b" },
   { chunk_index := 1, start_word := 1, end_word := 3, text := "b c" },
   { chunk_index := 2, start_word := 2, end_word := 3, text := "c" }]

def parseW : List Char → Option Nat := fun s =>
  if s = ['{', '1', '}'] then some 7 else none

def createW : String → Except String EmbResponse := fun _ =>
  Except.ok { data := [{ embedding := [1] }] }

def encodeW : String → List Nat := fun _ => []

def corpusW : List CorpusEntry := [{ name := "n", body := "bb", metadata := "m" }]

def chunkEntryW : ChunkEntry := { text := "t", embedding := [1], metadata := "m" }

def chunkListW : List ChunkEntry :=
  [chunkEntryW, chunkEntryW, chunkEntryW, chunkEntryW, chunkEntryW]

def ragEnvW : RagEnv :=
  { create := createW,
    corpus_with_embeddings := [chunkEntryW],
    search := fun _ _ => [0, 0, 0, 0, 0],
    complete := fun _ => "done" }

def ragEnvW3 : RagEnv :=
  { create := createW,
    corpus_with_embeddings :=
      [{ text := "near", embedding := [1], metadata := "m" },
       { text := "far", embedding := [11], metadata := "m" }],
    search := fun _ _ => [0],
    complete := fun _ => "" }

def apiCE : List ChatMsg → List Char := fun _ =>
  ['"', 'e', 'v', 'e', 'n', 't', 's', '"']

def parseCE : List Char → Option PyVal := fun s =>
  if s = ['"', 'e', 'v', 'e', 'n', 't', 's', '"'] then some (PyVal.pyStr "events")
  else none

def apiCG : List ChatMsg → List Char := fun _ => []

def parseCG : List Char → Option PyVal := fun _ =>
  some (PyVal.pyDict [("events", PyVal.pyList [PyVal.pyDict []])])

theorem pySlice_natCast {α : Type} (xs : List α) (a b : Nat) :
    pySlice xs (a : Int) (b : Int) = (xs.drop a).take (b - a) := by
  unfold pySlice pyIndex
  have ha : ¬ ((a : Int) < 0) := by omega
  have hb : ¬ ((b : Int) < 0) := by omega
  simp only [if_neg ha, if_neg hb, Int.toNat_natCast]
  rcases Nat.le_total b xs.length with hbn | hbn
  · rw [min_eq_left hbn]
    rcases Nat.le_total a xs.length with han | han
    · rw [min_eq_left han, List.drop_take]
    · rw [min_eq_right han]
      have h1 : (xs.take b).length ≤ xs.length := by
        rw [List.length_take]; omega
      rw [List.drop_eq_nil_of_le h1]
      rw [List.drop_eq_nil_of_le han]
      simp
  · rw [min_eq_right hbn, List.take_length]
    rcases Nat.le_total a xs.length with han | han
    · rw [min_eq_left han]
      have h2 : (xs.drop a).take (b - a) = xs.drop a := by
        apply List.take_of_length_le
        rw [List.length_drop]; omega
      rw [h2]
    · rw [min_eq_right han]
      rw [List.drop_eq_nil_of_le han, List.drop_eq_nil_of_le (le_refl xs.length)]
      simp

theorem chunkLoop_isSome (words : List String) (mt ov : Nat) (hov : ov < mt) :
    ∀ fuel (start idx : Nat), words.length < start + fuel → 0 < fuel →
      (chunkTextLoop words mt ov (start : Int) idx fuel).isSome = true := by
  intro fuel
  induction fuel with
  | zero => intro start idx h h0; omega
  | succ f ih =>
    intro start idx h _
    rw [chunkTextLoop]
    by_cases hlt : (start : Int) < (words.length : Int)
    · simp only [if_pos hlt]
      have hlt' : start < words.length := by exact_mod_cast hlt
      have hsn : (start : Int) + (mt : Int) - (ov : Int) = ((start + (mt - ov) : Nat) : Int) := by
        push_cast; omega
      rw [hsn]
      have hih := ih (start + (mt - ov)) (idx + 1) (by omega) (by omega)
      cases hres : chunkTextLoop words mt ov ((start + (mt - ov) : Nat) : Int) (idx + 1) f with
      | none => rw [hres] at hih; simp at hih
      | some rest => simp
    · simp only [if_neg hlt, Option.isSome_some]

theorem chunkLoop_none (words : List String) (mt ov : Nat) (hov : mt ≤ ov)
    (hw : words ≠ []) :
    ∀ fuel (start : Int), start ≤ 0 → ∀ idx,
      chunkTextLoop words mt ov start idx fuel = none := by
  intro fuel
  induction fuel with
  | zero => intro start h idx; rfl
  | succ f ih =>
    intro start h idx
    rw [chunkTextLoop]
    have hlen : 0 < words.length := List.length_pos.mpr hw
    have hlt : start < (words.length : Int) := by
      have h0 : (0 : Int) < (words.length : Int) := by exact_mod_cast hlen
      omega
    simp only [if_pos hlt]
    have hle : (mt : Int) ≤ (ov : Int) := by exact_mod_cast hov
    rw [ih (start + (mt : Int) - (ov : Int)) (by omega) (idx + 1)]

theorem chunkLoop_invariant (words : List String) (mt ov : Nat) (hov : ov < mt) :
    ∀ fuel (start idx : Nat) cs,
      chunkTextLoop words mt ov (start : Int) idx fuel = some cs →
      (∀ k, k < cs.length →
          (cs.getD k emptyChunk).chunk_index = idx + k
        ∧ (cs.getD k emptyChunk).start_word = ((start + k * (mt - ov) : Nat) : Int)
        ∧ (cs.getD k emptyChunk).text
            = String.intercalate " " ((words.drop (start + k * (mt - ov))).take mt)
        ∧ (cs.getD k emptyChunk).end_word
            = ((start + k * (mt - ov) : Nat) : Int)
              + (((words.drop (start + k * (mt - ov))).take mt).length : Int))
      ∧ (∀ j, start ≤ j → j < words.length → ∃ k, k < cs.length ∧
          (cs.getD k emptyChunk).start_word ≤ (j : Int)
          ∧ (j : Int) < (cs.getD k emptyChunk).end_word) := by
  intro fuel
  induction fuel with
  | zero =>
    intro start idx cs h
    simp [chunkTextLoop] at h
  | succ f ih =>
    intro start idx cs h
    rw [chunkTextLoop] at h
    by_cases hlt : (start : Int) < (words.length : Int)
    · simp only [if_pos hlt] at h
      have hlt' : start < words.length := by exact_mod_cast hlt
      have hsn : (start : Int) + (mt : Int) - (ov : Int) = ((start + (mt - ov) : Nat) : Int) := by
        push_cast; omega
      rw [hsn] at h
      cases hres : chunkTextLoop words mt ov ((start + (mt - ov) : Nat) : Int) (idx + 1) f with
      | none => rw [hres] at h; cases h
      | some rest =>
        rw [hres] at h
        simp only [Option.some.injEq] at h
        subst h
        have hslice : pySlice words (start : Int) ((start : Int) + (mt : Int))
            = (words.drop start).take mt := by
          have hc : (start : Int) + (mt : Int) = ((start + mt : Nat) : Int) := by push_cast; ring
          rw [hc, pySlice_natCast]
          congr 1
          omega
        obtain ⟨ihA, ihB⟩ := ih (start + (mt - ov)) (idx + 1) rest hres
        constructor
        · intro k hk
          cases k with
          | zero =>
            refine ⟨by simp [List.getD_cons_zero], ?_, ?_, ?_⟩
            · simp [List.getD_cons_zero]
            · rw [List.getD_cons_zero]
              show String.intercalate " " (pySlice words (start : Int) ((start : Int) + (mt : Int)))
                  = String.intercalate " " ((words.drop (start + 0 * (mt - ov))).take mt)
              rw [hslice]
              congr 3
              omega
            · rw [List.getD_cons_zero]
              show (start : Int) + ((pySlice words (start : Int) ((start : Int) + (mt : Int))).length : Int)
                  = ((start + 0 * (mt - ov) : Nat) : Int)
                    + (((words.drop (start + 0 * (mt - ov))).take mt).length : Int)
              rw [hslice]
              have he : start + 0 * (mt - ov) = start := by omega
              rw [he]
          | succ k' =>
            have hk' : k' < rest.length := by
              simpa using hk
            obtain ⟨hci, hsw, htx, hew⟩ := ihA k' hk'
            have harith : start + (mt - ov) + k' * (mt - ov) = start + (k' + 1) * (mt - ov) := by
              ring_nf
            refine ⟨?_, ?_, ?_, ?_⟩
            · rw [List.getD_cons_succ, hci]; omega
            · rw [List.getD_cons_succ, hsw, harith]
            · rw [List.getD_cons_succ, htx, harith]
            · rw [List.getD_cons_succ, hew, harith]
        · intro j hj hjlen
          by_cases hjd : j < start + (mt - ov)
          · refine ⟨0, by simp, ?_, ?_⟩
            · rw [List.getD_cons_zero]
              show (start : Int) ≤ (j : Int)
              exact_mod_cast hj
            · rw [List.getD_cons_zero]
              show (j : Int) < (start : Int) + ((pySlice words (start : Int) ((start : Int) + (mt : Int))).length : Int)
              rw [hslice]
              have hlen1 : ((words.drop start).take mt).length = min mt (words.length - start) := by
                rw [List.length_take, List.length_drop]
              rw [hlen1]
              omega
          · obtain ⟨k, hk, h1, h2⟩ := ihB j (by omega) hjlen
            refine ⟨k + 1, by simpa using hk, ?_, ?_⟩
            · rw [List.getD_cons_succ]; exact h1
            · rw [List.getD_cons_succ]; exact h2
    · simp only [if_neg hlt] at h
      simp only [Option.some.injEq] at h
      subst h
      constructor
      · intro k hk; simp at hk
      · intro j hj hjlen
        exfalso
        omega


/-- C2: for 0 <= overlap < max_tokens, chunk_text splits the text into
whitespace-separated words and returns chunks whose text is the space-join
of at most max_tokens consecutive words, whose start_word advances by
max_tokens - overlap from its predecessor (starting at 0), whose end_word
is start_word plus the number of words in the chunk, whose chunk_index is
the position in the returned list, and which jointly cover every word;
the chunking counts words, not tokenizer tokens. -/
theorem claim_C2_chunk_text_shape (text : String) (maxTokens overlap : Nat)
    (cs : List Chunk) (hov : overlap < maxTokens)
    (hcs : chunk_text text maxTokens overlap = some cs) :
    (∀ k, k < cs.length → (cs.getD k emptyChunk).chunk_index = k)
    ∧ (0 < cs.length → (cs.getD 0 emptyChunk).start_word = 0)
    ∧ (∀ k, k + 1 < cs.length →
        (cs.getD (k + 1) emptyChunk).start_word
          = (cs.getD k emptyChunk).start_word + ((maxTokens : Int) - (overlap : Int)))
    ∧ (∀ k, k < cs.length → ∃ a : Nat,
        (cs.getD k emptyChunk).start_word = (a : Int)
        ∧ (cs.getD k emptyChunk).text
            = String.intercalate " " (((splitWords text).drop a).take maxTokens)
        ∧ (((splitWords text).drop a).take maxTokens).length ≤ maxTokens
        ∧ (cs.getD k emptyChunk).end_word
            = (a : Int) + ((((splitWords text).drop a).take maxTokens).length : Int))
    ∧ (∀ j, j < (splitWords text).length → ∃ k, k < cs.length ∧
        (cs.getD k emptyChunk).start_word ≤ (j : Int)
        ∧ (j : Int) < (cs.getD k emptyChunk).end_word) := by
  have h0 : chunkTextLoop (splitWords text) maxTokens overlap ((0 : Nat) : Int) 0
      ((splitWords text).length + 1) = some cs := by
    simpa [chunk_text] using hcs
  obtain ⟨hA, hB⟩ := chunkLoop_invariant (splitWords text) maxTokens overlap hov
    ((splitWords text).length + 1) 0 0 cs h0
  refine ⟨?_, ?_, ?_, ?_, ?_⟩
  · intro k hk
    simpa using (hA k hk).1
  · intro h0len
    simpa using (hA 0 h0len).2.1
  · intro k hk
    have hk' : k < cs.length := by omega
    rw [(hA (k + 1) hk).2.1, (hA k hk').2.1]
    push_cast [Nat.cast_sub hov.le]
    ring
  · intro k hk
    refine ⟨k * (maxTokens - overlap), ?_, ?_, ?_, ?_⟩
    · simpa using (hA k hk).2.1
    · simpa using (hA k hk).2.2.1
    · rw [List.length_take]
      exact min_le_left _ _
    · simpa using (hA k hk).2.2.2
  · intro j hj
    exact hB j (Nat.zero_le j) hj

theorem claim_C2_witness :
    (chunkWitList.getD 2 emptyChunk).chunk_index = 2
    ∧ (chunkWitList.getD 1 emptyChunk).start_word
        = (chunkWitList.getD 0 emptyChunk).start_word + ((2 : Int) - (1 : Int)) :=
  ⟨(claim_C2_chunk_text_shape "a b c" 2 1 chunkWitList (by decide) rfl).1 2 (by decide),
   (claim_C2_chunk_text_shape "a b c" 2 1 chunkWitList (by decide) rfl).2.2.1 0 (by decide)⟩

/-- C9: under the precondition max_tokens > overlap >= 0 the chunking loop
of chunk_text reaches its exit condition within len(words) + 1 iterations
for every input text, because each iteration advances start by the positive
amount max_tokens - overlap; the precondition is necessary: when
overlap >= max_tokens the loop variable never increases, and on any text
with at least one word the loop runs forever (no fuel bound suffices). -/
theorem claim_C9_chunk_text_termination (text : String) (maxTokens overlap : Nat) :
    (overlap < maxTokens → (chunk_text text maxTokens overlap).isSome = true)
    ∧ (maxTokens ≤ overlap → splitWords text ≠ [] →
        ∀ fuel idx, chunkTextLoop (splitWords text) maxTokens overlap 0 idx fuel = none) := by
  constructor
  · intro hov
    have h := chunkLoop_isSome (splitWords text) maxTokens overlap hov
      ((splitWords text).length + 1) 0 0 (by omega) (by omega)
    simpa [chunk_text] using h
  · intro hov hw fuel idx
    exact chunkLoop_none (splitWords text) maxTokens overlap hov hw fuel 0 (by omega) idx

theorem claim_C9_witness :
    (chunk_text "a b" 800 100).isSome = true
    ∧ chunkTextLoop (splitWords "a") 2 2 0 0 5 = none :=
  ⟨(claim_C9_chunk_text_termination "a b" 800 100).1 (by decide),
   (claim_C9_chunk_text_termination "a" 2 2).2 (by decide) (by decide) 5 0⟩


theorem splitFirst_append {α : Type} [DecidableEq α] (sep : List α) :
    ∀ s pre post, splitFirst sep s = some (pre, post) → pre ++ sep ++ post = s := by
  intro s
  induction s with
  | nil => intro pre post h; cases h
  | cons x rest ih =>
    intro pre post h
    rw [splitFirst] at h
    by_cases htake : (x :: rest).take sep.length = sep
    · rw [if_pos htake] at h
      simp only [Option.some.injEq, Prod.mk.injEq] at h
      obtain ⟨h1, h2⟩ := h
      subst h1
      subst h2
      simp only [List.nil_append]
      conv_rhs => rw [← List.take_append_drop sep.length (x :: rest)]
      rw [htake]
    · rw [if_neg htake] at h
      cases hres : splitFirst sep rest with
      | none => rw [hres] at h; cases h
      | some pq =>
        obtain ⟨p, q⟩ := pq
        rw [hres] at h
        simp only [Option.some.injEq, Prod.mk.injEq] at h
        obtain ⟨h1, h2⟩ := h
        rw [← h1, ← h2]
        have hr := ih p q hres
        simp only [List.cons_append]
        rw [hr]

theorem pySplitF_ne_nil {α : Type} [DecidableEq α] (sep : List α) :
    ∀ fuel s, pySplitF sep fuel s ≠ [] := by
  intro fuel s
  cases fuel with
  | zero => simp [pySplitF]
  | succ f =>
    rw [pySplitF]
    cases h : splitFirst sep s with
    | none => simp
    | some pq =>
      obtain ⟨p, q⟩ := pq
      simp

theorem intercalate_cons_ne_nil {α : Type} (sep a : List α) (l : List (List α))
    (h : l ≠ []) :
    List.intercalate sep (a :: l) = a ++ sep ++ List.intercalate sep l := by
  obtain ⟨b, t, rfl⟩ := List.exists_cons_of_ne_nil h
  simp [List.intercalate, List.intersperse]

theorem pySplitF_join {α : Type} [DecidableEq α] (sep : List α) :
    ∀ fuel s, List.intercalate sep (pySplitF sep fuel s) = s := by
  intro fuel
  induction fuel with
  | zero => intro s; simp [pySplitF, List.intercalate]
  | succ f ih =>
    intro s
    rw [pySplitF]
    cases h : splitFirst sep s with
    | none => simp [List.intercalate]
    | some pq =>
      obtain ⟨pre, post⟩ := pq
      rw [intercalate_cons_ne_nil sep pre _ (pySplitF_ne_nil sep f post)]
      rw [ih post]
      exact splitFirst_append sep s pre post h

/-- C6: chunk_text_for_embeddings is the paragraph-splitting inverse of
joining: joining the returned pieces with the double-newline separator
restores the input text unchanged, for every text. -/
theorem claim_C6_split_join_roundtrip (text : List Char) :
    List.intercalate ['\n', '\n'] (chunk_text_for_embeddings text) = text :=
  pySplitF_join ['\n', '\n'] (text.length + 1) text

theorem firstIdx_lt {α : Type} [DecidableEq α] (c : α) :
    ∀ s i, firstIdx c s = some i → i < s.length := by
  intro s
  induction s with
  | nil => intro i h; cases h
  | cons x xs ih =>
    intro i h
    rw [firstIdx] at h
    by_cases hx : x = c
    · rw [if_pos hx] at h
      simp only [Option.some.injEq] at h
      subst h
      simp
    · rw [if_neg hx] at h
      cases hres : firstIdx c xs with
      | none => rw [hres] at h; cases h
      | some i' =>
        rw [hres] at h
        simp only [Option.map_some', Option.some.injEq] at h
        subst h
        have := ih i' hres
        simp only [List.length_cons]
        omega

theorem lastIdx_lt {α : Type} [DecidableEq α] (c : α) :
    ∀ s j, lastIdx c s = some j → j < s.length := by
  intro s
  induction s with
  | nil => intro j h; cases h
  | cons x xs ih =>
    intro j h
    rw [lastIdx] at h
    cases hres : lastIdx c xs with
    | some i =>
      rw [hres] at h
      simp only [Option.some.injEq] at h
      subst h
      have := ih i hres
      simp only [List.length_cons]
      omega
    | none =>
      rw [hres] at h
      by_cases hx : x = c
      · rw [if_pos hx] at h
        simp only [Option.some.injEq] at h
        subst h
        simp
      · rw [if_neg hx] at h
        cases h

theorem lastIdx_last {α : Type} [DecidableEq α] (c : α) :
    ∀ s j, lastIdx c s = some j → j + 1 = s.length → s.drop j = [c] := by
  intro s
  induction s with
  | nil => intro j h; cases h
  | cons x xs ih =>
    intro j h hlen
    rw [lastIdx] at h
    cases hres : lastIdx c xs with
    | some i =>
      rw [hres] at h
      simp only [Option.some.injEq] at h
      subst h
      simp only [List.length_cons] at hlen
      have hd := ih i hres (by omega)
      rw [List.drop_succ_cons]
      exact hd
    | none =>
      rw [hres] at h
      by_cases hx : x = c
      · rw [if_pos hx] at h
        simp only [Option.some.injEq] at h
        subst h
        simp only [List.length_cons] at hlen
        have hxs : xs = [] := by
          cases xs with
          | nil => rfl
          | cons y ys => simp at hlen
        subst hxs
        simp [hx]
      · rw [if_neg hx] at h
        cases h

/-- C8: try_parse_json is total (every outcome is an Option value, no
exception escapes the model) and equals the first-success cascade of the
parser on the whole output and then on the substring of the output from
the first opening brace through the last closing brace, returning None
when both fail.  The two hypotheses are facts of any JSON parser: the
empty string and a lone closing brace do not parse. -/
theorem claim_C8_try_parse_json {J : Type} (parse : List Char → Option J)
    (output : List Char) (hempty : parse [] = none) (hbrace : parse ['}'] = none) :
    try_parse_json parse output = optFirst (parse output) (parse (specBraceSpan output)) := by
  have hmatch : ∀ o : Option J, (match o with | some v => some v | none => none) = o := by
    intro o
    cases o <;> rfl
  unfold try_parse_json optFirst specBraceSpan
  cases hpo : parse output with
  | some v => rfl
  | none =>
    simp only []
    cases hf : firstIdx '{' output with
    | some i =>
      cases hl : lastIdx '}' output with
      | some j =>
        simp only [hf, hl]
        rw [hmatch]
        congr 1
        have hi := firstIdx_lt '{' output i hf
        have hj := lastIdx_lt '}' output j hl
        rw [show (j : Int) + 1 = ((j + 1 : Nat) : Int) by push_cast; ring]
        rw [pySlice_natCast]
      | none =>
        simp only [hf, hl]
        rw [hmatch]
        have hnil : pySlice output (i : Int) (-1 + 1) = [] := by
          unfold pySlice pyIndex
          norm_num
        rw [hnil, hempty]
    | none =>
      cases hl : lastIdx '}' output with
      | some j =>
        simp only [hf, hl]
        rw [hmatch]
        have hj := lastIdx_lt '}' output j hl
        have hlen : 0 < output.length := by omega
        have hidx : pyIndex output.length (-1) = output.length - 1 := by
          unfold pyIndex
          rw [if_pos (by omega : (-1 : Int) < 0)]
          omega
        have hj1 : pyIndex output.length ((j : Int) + 1) = j + 1 := by
          unfold pyIndex
          rw [if_neg (by omega : ¬ ((j : Int) + 1 < 0))]
          omega
        by_cases hjl : j + 1 = output.length
        · have hdrop : pySlice output (-1) ((j : Int) + 1) = ['}'] := by
            unfold pySlice
            rw [hidx, hj1, hjl, List.take_length]
            have hj' : output.length - 1 = j := by omega
            rw [hj']
            exact lastIdx_last '}' output j hl hjl
          rw [hdrop, hbrace, hempty]
        · have hdrop : pySlice output (-1) ((j : Int) + 1) = [] := by
            unfold pySlice
            rw [hidx, hj1]
            apply List.drop_eq_nil_of_le
            rw [List.length_take]
            omega
          rw [hdrop, hempty]
      | none =>
        simp only [hf, hl]
        rw [hmatch]
        have hnil : pySlice output (-1) (-1 + 1) = [] := by
          unfold pySlice pyIndex
          norm_num
        rw [hnil, hempty]

theorem claim_C8_witness :
    try_parse_json parseW ['x', '{', '1', '}']
      = optFirst (parseW ['x', '{', '1', '}']) (parseW (specBraceSpan ['x', '{', '1', '}'])) :=
  claim_C8_try_parse_json parseW ['x', '{', '1', '}'] (by decide) (by decide)


/-- C4: get_embeddings_for_text returns response.data[0].embedding when the
embeddings API call succeeds, and when the call raises it prints the error
message and returns None; no exception propagates, which the model states
by returning a total pair of optional value and printed lines. -/
theorem claim_C4_embeddings_error_handling (create : String → Except String EmbResponse)
    (text : String) :
    (∀ response d rest, create text = Except.ok response → response.data = d :: rest →
        get_embeddings_for_text create text = (some d.embedding, []))
    ∧ (∀ e, create text = Except.error e →
        get_embeddings_for_text create text
          = (none, ["Error generating embedding: " ++ e])) := by
  constructor
  · intro response d rest hok hdata
    unfold get_embeddings_for_text
    simp only [hok, hdata]
  · intro e herr
    unfold get_embeddings_for_text
    simp only [herr]

theorem claim_C4_witness :
    get_embeddings_for_text createW "story" = (some [1], []) :=
  (claim_C4_embeddings_error_handling createW "story").1
    { data := [{ embedding := [1] }] } { embedding := [1] } [] rfl rfl

/-- C5: load_corpus returns exactly one entry per file of the recursive
directory walk whose name ends in .json, in walk order; each entry carries
exactly the three fields name, body and metadata copied from the parsed
JSON file, and files without the .json suffix contribute no entry. -/
theorem claim_C5_load_corpus (walk : List (String × List String × List String))
    (readJson : String → StoryJson) (joinPath : String → String → String) :
    load_corpus walk readJson joinPath
      = walk.flatMap (fun entry =>
          (entry.2.2.filter (fun file => file.endsWith ".json")).map
            (fun file =>
              { name := (readJson (joinPath entry.1 file)).name,
                body := (readJson (joinPath entry.1 file)).body,
                metadata := (readJson (joinPath entry.1 file)).metadata })) := by
  have hinner : ∀ (root : String) (files : List String) (acc : List CorpusEntry),
      files.foldl
        (fun corpus file =>
          if file.endsWith ".json" then
            let data := readJson (joinPath root file)
            corpus ++ [{ name := data.name, body := data.body, metadata := data.metadata }]
          else corpus) acc
      = acc ++ (files.filter (fun file => file.endsWith ".json")).map
          (fun file =>
            { name := (readJson (joinPath root file)).name,
              body := (readJson (joinPath root file)).body,
              metadata := (readJson (joinPath root file)).metadata }) := by
    intro root files
    induction files with
    | nil => intro acc; simp
    | cons x xs ih =>
      intro acc
      simp only [List.foldl_cons, List.filter_cons]
      by_cases hx : x.endsWith ".json"
      · rw [if_pos hx, if_pos hx, ih]
        simp [List.append_assoc]
      · rw [if_neg hx, if_neg hx, ih]
  have houter : ∀ (w : List (String × List String × List String)) (acc : List CorpusEntry),
      w.foldl
        (fun corpus entry =>
          entry.2.2.foldl
            (fun corpus file =>
              if file.endsWith ".json" then
                let data := readJson (joinPath entry.1 file)
                corpus ++ [{ name := data.name, body := data.body, metadata := data.metadata }]
              else corpus) corpus) acc
      = acc ++ w.flatMap (fun entry =>
          (entry.2.2.filter (fun file => file.endsWith ".json")).map
            (fun file =>
              { name := (readJson (joinPath entry.1 file)).name,
                body := (readJson (joinPath entry.1 file)).body,
                metadata := (readJson (joinPath entry.1 file)).metadata })) := by
    intro w
    induction w with
    | nil => intro acc; simp
    | cons e es ih =>
      intro acc
      simp only [List.foldl_cons, List.flatMap_cons]
      rw [hinner e.1 e.2.2 acc, ih]
      rw [List.append_assoc]
  simpa [load_corpus] using houter walk []

/-- C7: the analysis table built from the corpus has one row per story in
corpus order whose length is the character length of the story body, whose
tokens is count_tokens of the body, whose readable_by_gpt_3_5 flag is true
exactly when tokens < 4096 and whose readable_by_gpt_4o flag is true
exactly when tokens < 32768. -/
theorem claim_C7_analysis_rows (encode : String → List Nat) (corpus : List CorpusEntry) :
    (lcats_analysis encode corpus).length = corpus.length
    ∧ ∀ k, k < corpus.length →
        ((lcats_analysis encode corpus).getD k emptyRow).name
            = (corpus.getD k emptyStory).name
        ∧ ((lcats_analysis encode corpus).getD k emptyRow).length
            = (corpus.getD k emptyStory).body.length
        ∧ ((lcats_analysis encode corpus).getD k emptyRow).tokens
            = count_tokens encode (corpus.getD k emptyStory).body
        ∧ (((lcats_analysis encode corpus).getD k emptyRow).readable_by_gpt_3_5 = true
            ↔ count_tokens encode (corpus.getD k emptyStory).body < 4096)
        ∧ (((lcats_analysis encode corpus).getD k emptyRow).readable_by_gpt_4o = true
            ↔ count_tokens encode (corpus.getD k emptyStory).body < 32768) := by
  have hmap : lcats_analysis encode corpus
      = corpus.map (fun story =>
          { name := story.name,
            length := story.body.length,
            tokens := count_tokens encode story.body,
            readable_by_gpt_3_5 := decide (count_tokens encode story.body < 4096),
            readable_by_gpt_4o := decide (count_tokens encode story.body < 32768) }) := by
    have haux : ∀ (c : List CorpusEntry) (acc : List AnalysisRow),
        c.foldl
          (fun rows story =>
            rows ++ [{ name := story.name,
                       length := story.body.length,
                       tokens := count_tokens encode story.body,
                       readable_by_gpt_3_5 := decide (count_tokens encode story.body < 4096),
                       readable_by_gpt_4o := decide (count_tokens encode story.body < 32768) }]) acc
        = acc ++ c.map (fun story =>
            { name := story.name,
              length := story.body.length,
              tokens := count_tokens encode story.body,
              readable_by_gpt_3_5 := decide (count_tokens encode story.body < 4096),
              readable_by_gpt_4o := decide (count_tokens encode story.body < 32768) }) := by
      intro c
      induction c with
      | nil => intro acc; simp
      | cons s ss ih =>
        intro acc
        simp only [List.foldl_cons, List.map_cons]
        rw [ih]
        simp
    simpa [lcats_analysis] using haux corpus []
  rw [hmap]
  constructor
  · simp
  · intro k hk
    have hk2 : k < (corpus.map (fun story =>
        ({ name := story.name,
           length := story.body.length,
           tokens := count_tokens encode story.body,
           readable_by_gpt_3_5 := decide (count_tokens encode story.body < 4096),
           readable_by_gpt_4o := decide (count_tokens encode story.body < 32768) } : AnalysisRow))).length := by
      simpa using hk
    rw [List.getD_eq_getElem _ _ hk2, List.getD_eq_getElem _ _ hk, List.getElem_map]
    refine ⟨rfl, rfl, rfl, ?_, ?_⟩ <;> simp [decide_eq_true_eq]

theorem claim_C7_witness :
    ((lcats_analysis encodeW corpusW).getD 0 emptyRow).length
        = (corpusW.getD 0 emptyStory).body.length
    ∧ (((lcats_analysis encodeW corpusW).getD 0 emptyRow).readable_by_gpt_3_5 = true
        ↔ count_tokens encodeW (corpusW.getD 0 emptyStory).body < 4096) :=
  ⟨((claim_C7_analysis_rows encodeW corpusW).2 0 (by decide)).2.1,
   ((claim_C7_analysis_rows encodeW corpusW).2 0 (by decide)).2.2.2.1⟩


/-- C1: retrieve_and_generate is exactly the chunk-embed-index-query-
prompt-assemble-completion pipeline: it equals generate_completions applied
to elaborate_query_with_context, which embeds the query, retrieves the
top_n = 5 chunks from the index, joins their text fields with a single
newline into the context, and assembles the prompt
Context-newline-context-blank-line-Question-query-newline-Answer. -/
theorem claim_C1_retrieval_pipeline (env : RagEnv) (query : String)
    (query_embedding : List Int) (chunks : List ChunkEntry)
    (hemb : (get_embeddings_for_text env.create query).fst = some query_embedding)
    (hidx : traverseOpt (pyListGet env.corpus_with_embeddings)
        (env.search query_embedding 5) = some chunks) :
    get_chunks_for_query env query 5 = some chunks
    ∧ elaborate_query_with_context env query
        = some (generate_prompt_from_query_and_context query
            (generate_context_from_chunks chunks))
    ∧ generate_context_from_chunks chunks
        = String.intercalate "\n" (chunks.map ChunkEntry.text)
    ∧ generate_prompt_from_query_and_context query (generate_context_from_chunks chunks)
        = "Context:\n" ++ String.intercalate "\n" (chunks.map ChunkEntry.text)
          ++ "\n\nQuestion: " ++ query ++ "\nAnswer:"
    ∧ retrieve_and_generate env query
        = some (generate_completions env
            (generate_prompt_from_query_and_context query
              (generate_context_from_chunks chunks)) 100)
    ∧ retrieve_and_generate env query
        = some (env.complete [{ role := "user", content := "Context:\n" ++ String.intercalate "\n" (chunks.map ChunkEntry.text) ++ "\n\nQuestion: " ++ query ++ "\nAnswer:" }]) := by
  have h1 : get_chunks_for_query env query 5 = some chunks := by
    unfold get_chunks_for_query
    simp only [hemb]
    exact hidx
  have h2 : elaborate_query_with_context env query
      = some (generate_prompt_from_query_and_context query
          (generate_context_from_chunks chunks)) := by
    unfold elaborate_query_with_context
    simp only [h1]
  have h5 : retrieve_and_generate env query
      = some (generate_completions env
          (generate_prompt_from_query_and_context query
            (generate_context_from_chunks chunks)) 100) := by
    unfold retrieve_and_generate
    simp only [h2]
  refine ⟨h1, h2, rfl, rfl, h5, ?_⟩
  rw [h5]
  rfl

theorem claim_C1_witness :
    get_chunks_for_query ragEnvW "q" 5 = some chunkListW
    ∧ retrieve_and_generate ragEnvW "q"
        = some (ragEnvW.complete [{ role := "user", content := "Context:\n" ++ String.intercalate "\n" (chunkListW.map ChunkEntry.text) ++ "\n\nQuestion: " ++ "q" ++ "\nAnswer:" }]) :=
  ⟨(claim_C1_retrieval_pipeline ragEnvW "q" [1] chunkListW rfl rfl).1,
   (claim_C1_retrieval_pipeline ragEnvW "q" [1] chunkListW rfl rfl).2.2.2.2.2⟩

theorem getD_map_embedding (corpus : List ChunkEntry) (n : Nat) (h : n < corpus.length) :
    (corpus.map ChunkEntry.embedding).getD n []
      = (corpus.getD n emptyChunkEntry).embedding := by
  rw [List.getD_eq_getElem _ _ (by simpa using h), List.getD_eq_getElem _ _ h,
    List.getElem_map]

theorem traverseOpt_eq_map {α β : Type} (f : α → Option β) (g : α → β) :
    ∀ l : List α, (∀ a ∈ l, f a = some (g a)) → traverseOpt f l = some (l.map g) := by
  intro l
  induction l with
  | nil => intro h; rfl
  | cons x xs ih =>
    intro h
    rw [traverseOpt]
    rw [h x (by simp), ih (fun a ha => h a (by simp [ha]))]
    rfl

theorem pyListGet_nonneg {α : Type} (xs : List α) (i : Int) (d : α)
    (h0 : 0 ≤ i) (hl : i < (xs.length : Int)) :
    pyListGet xs i = some (xs.getD i.toNat d) := by
  unfold pyListGet
  rw [if_pos h0]
  have hn : i.toNat < xs.length := by omega
  rw [List.getD_eq_getElem _ _ hn]
  rw [List.get?_eq_getElem?]
  exact List.getElem?_eq_getElem hn

/-- C3: with the contract of IndexFlatL2 search as hypotheses (top_n valid
distinct row indices, in non-decreasing squared L2 distance, beating every
non-returned row), get_chunks_for_query returns exactly the corpus entries at
those rows, in that order, and the returned entries are the top_n nearest
stored embeddings in non-decreasing distance from the query embedding. -/
theorem claim_C3_top_n_nearest (env : RagEnv) (query : String) (top_n : Nat)
    (query_embedding : List Int)
    (hemb : (get_embeddings_for_text env.create query).fst = some query_embedding)
    (hlen : (env.search query_embedding top_n).length = top_n)
    (hrange : ∀ i ∈ env.search query_embedding top_n,
        0 ≤ i ∧ i < (env.corpus_with_embeddings.length : Int))
    (hnodup : (env.search query_embedding top_n).Nodup)
    (hsorted : (env.search query_embedding top_n).Pairwise (fun a b =>
        sqL2 query_embedding
            ((env.corpus_with_embeddings.map ChunkEntry.embedding).getD a.toNat [])
          ≤ sqL2 query_embedding
            ((env.corpus_with_embeddings.map ChunkEntry.embedding).getD b.toNat [])))
    (hnear : ∀ j ∈ List.range env.corpus_with_embeddings.length,
        (j : Int) ∉ env.search query_embedding top_n →
        ∀ i ∈ env.search query_embedding top_n,
          sqL2 query_embedding
              ((env.corpus_with_embeddings.map ChunkEntry.embedding).getD i.toNat [])
            ≤ sqL2 query_embedding
              ((env.corpus_with_embeddings.map ChunkEntry.embedding).getD j [])) :
    get_chunks_for_query env query top_n
        = some (((env.search query_embedding top_n).map Int.toNat).map
            (fun i => env.corpus_with_embeddings.getD i emptyChunkEntry))
    ∧ ((env.search query_embedding top_n).map Int.toNat).length = top_n
    ∧ ((env.search query_embedding top_n).map Int.toNat).Nodup
    ∧ (∀ i ∈ (env.search query_embedding top_n).map Int.toNat,
        i < env.corpus_with_embeddings.length)
    ∧ (((env.search query_embedding top_n).map Int.toNat).map
          (fun i => sqL2 query_embedding
            ((env.corpus_with_embeddings.getD i emptyChunkEntry).embedding))).Pairwise
        (fun a b => a ≤ b)
    ∧ (∀ j, j < env.corpus_with_embeddings.length →
        j ∉ (env.search query_embedding top_n).map Int.toNat →
        ∀ i ∈ (env.search query_embedding top_n).map Int.toNat,
          sqL2 query_embedding ((env.corpus_with_embeddings.getD i emptyChunkEntry).embedding)
            ≤ sqL2 query_embedding
              ((env.corpus_with_embeddings.getD j emptyChunkEntry).embedding)) := by
  refine ⟨?_, ?_, ?_, ?_, ?_, ?_⟩
  · unfold get_chunks_for_query
    simp only [hemb]
    rw [List.map_map]
    apply traverseOpt_eq_map
    intro i hi
    obtain ⟨h0, hl⟩ := hrange i hi
    exact pyListGet_nonneg env.corpus_with_embeddings i emptyChunkEntry h0 hl
  · simpa using hlen
  · apply List.Nodup.map_on _ hnodup
    intro x hx y hy hxy
    have hx0 := (hrange x hx).1
    have hy0 := (hrange y hy).1
    omega
  · intro i hi
    obtain ⟨i0, hi0, rfl⟩ := List.mem_map.mp hi
    obtain ⟨h0, hl⟩ := hrange i0 hi0
    omega
  · rw [List.map_map, List.pairwise_map]
    apply List.Pairwise.imp_of_mem _ hsorted
    intro a b ha hb hab
    obtain ⟨ha0, hal⟩ := hrange a ha
    obtain ⟨hb0, hbl⟩ := hrange b hb
    rw [getD_map_embedding _ _ (by omega), getD_map_embedding _ _ (by omega)] at hab
    exact hab
  · intro j hj hnot i hi
    obtain ⟨i0, hi0, rfl⟩ := List.mem_map.mp hi
    have hjres : (j : Int) ∉ env.search query_embedding top_n := by
      intro hmem
      apply hnot
      have : j = ((j : Int)).toNat := by omega
      rw [this]
      exact List.mem_map_of_mem Int.toNat hmem
    have hd := hnear j (List.mem_range.mpr hj) hjres i0 hi0
    obtain ⟨h0, hl⟩ := hrange i0 hi0
    rw [getD_map_embedding _ _ (by omega), getD_map_embedding _ _ hj] at hd
    exact hd

theorem claim_C3_witness :
    get_chunks_for_query ragEnvW3 "q" 1
        = some ((([0] : List Int).map Int.toNat).map
            (fun i => ragEnvW3.corpus_with_embeddings.getD i emptyChunkEntry)) :=
  (claim_C3_top_n_nearest ragEnvW3 "q" 1 [1] rfl rfl (by decide) (by decide)
    (by decide) (by decide)).1


theorem any_iff_find {α : Type} (p : α → Bool) :
    ∀ l : List α, l.any p = (l.find? p).isSome := by
  intro l
  induction l with
  | nil => rfl
  | cons x xs ih =>
    by_cases hx : p x = true
    · simp [List.any_cons, List.find?_cons, hx]
    · simp [List.any_cons, List.find?_cons, hx, ih]

theorem setKey_find (key : String) (val : PyVal) :
    ∀ kvs : List (String × PyVal),
      (setKey key val kvs).find? (fun kv => decide (kv.1 = key)) = some (key, val) := by
  intro kvs
  induction kvs with
  | nil => simp [setKey, List.find?]
  | cons kv rest ih =>
    rw [setKey]
    by_cases hk : kv.1 = key
    · rw [if_pos hk]
      simp [List.find?_cons, hk]
    · rw [if_neg hk]
      simp [List.find?_cons, hk, ih]

theorem tagEvents_dicts (idx : Int) :
    ∀ evs : List PyVal, (∀ e ∈ evs, ∃ ekvs, e = PyVal.pyDict ekvs) →
      tagEvents idx evs = Except.ok (evs.map (fun e =>
        match e with
        | PyVal.pyDict ekvs => PyVal.pyDict (setKey "chunk_index" (PyVal.pyInt idx) ekvs)
        | other => other)) := by
  intro evs
  induction evs with
  | nil => intro h; rfl
  | cons e rest ih =>
    intro h
    obtain ⟨ekvs, rfl⟩ := h e (by simp)
    rw [tagEvents]
    simp only [pySetItemStr]
    rw [ih (fun a ha => h a (by simp [ha]))]
    rfl

theorem extractLoop_good (parse : List Char → Option PyVal)
    (api : List ChatMsg → List Char) :
    ∀ chunks : List Chunk,
      (∀ c ∈ chunks, goodParsed (try_parse_json parse (api (build_prompt c.text)))) →
      extractLoop parse api chunks = Except.ok (chunks.flatMap (specScenes parse api)) := by
  intro chunks
  induction chunks with
  | nil => intro h; rfl
  | cons c rest ih =>
    intro h
    have hc := h c (by simp)
    have hrest := ih (fun a ha => h a (by simp [ha]))
    rw [extractLoop, List.flatMap_cons]
    generalize hp : try_parse_json parse (api (build_prompt c.text)) = r
    rw [hp] at hc
    cases r with
    | none =>
      simp only []
      have hs : specScenes parse api c = [] := by
        unfold specScenes
        rw [hp]
      rw [hs, hrest]
      simp
    | some v =>
      simp only []
      simp only [goodParsed] at hc
      rcases hc with htr | hcf | hdict
      · rw [if_neg (by simp [htr])]
        have hs : specScenes parse api c = [] := by
          unfold specScenes
          rw [hp]
          cases v <;> simp_all
        rw [hs, hrest]
        simp
      · by_cases htv : truthy v = true
        · rw [if_pos htv, hcf]
          have hs : specScenes parse api c = [] := by
            unfold specScenes
            rw [hp]
            cases v with
            | pyDict kvs =>
              simp only [pyContains, Except.ok.injEq] at hcf
              rw [any_iff_find] at hcf
              cases hfind : kvs.find? (fun kv => decide (kv.1 = "events")) with
              | none => simp [htv, hfind]
              | some kv => rw [hfind] at hcf; simp at hcf
            | pyNone => rfl
            | pyBool b => rfl
            | pyInt n => rfl
            | pyStr s => rfl
            | pyList xs => rfl
          rw [hs, hrest]
          simp
        · rw [if_neg htv]
          have hs : specScenes parse api c = [] := by
            unfold specScenes
            rw [hp]
            cases v <;> simp_all
          rw [hs, hrest]
          simp
      · obtain ⟨kvs, evs, k, rfl, hfind, hdicts⟩ := hdict
        have hne : kvs ≠ [] := by
          intro h0
          subst h0
          simp [List.find?] at hfind
        have htv : truthy (PyVal.pyDict kvs) = true := by
          simp only [truthy, Bool.not_eq_true']
          simpa [List.isEmpty_iff] using hne
        rw [if_pos htv]
        have hany : kvs.any (fun kv => decide (kv.1 = "events")) = true := by
          rw [any_iff_find, hfind]
          rfl
        simp only [pyContains, hany]
        simp only [if_true]
        simp only [pyGetItemStr, hfind]
        simp only [pyIter]
        rw [tagEvents_dicts (c.chunk_index : Int) evs hdicts]
        rw [hrest]
        have hs : specScenes parse api c = evs.map (fun e =>
            match e with
            | PyVal.pyDict ekvs =>
                PyVal.pyDict (setKey "chunk_index" (PyVal.pyInt (c.chunk_index : Int)) ekvs)
            | other => other) := by
          unfold specScenes
          rw [hp]
          simp only []
          rw [if_pos htv]
          simp only [hfind]
        rw [hs]

theorem specScenes_good (parse : List Char → Option PyVal)
    (api : List ChatMsg → List Char) (c : Chunk)
    (hg : goodParsed (try_parse_json parse (api (build_prompt c.text)))) :
    specScenes parse api c = []
    ∨ ∃ evs : List PyVal, (∀ e ∈ evs, ∃ ekvs, e = PyVal.pyDict ekvs)
        ∧ specScenes parse api c = evs.map (fun e =>
            match e with
            | PyVal.pyDict ekvs =>
                PyVal.pyDict (setKey "chunk_index" (PyVal.pyInt (c.chunk_index : Int)) ekvs)
            | other => other) := by
  generalize hp : try_parse_json parse (api (build_prompt c.text)) = r
  rw [hp] at hg
  cases r with
  | none =>
    left
    unfold specScenes
    rw [hp]
  | some v =>
    simp only [goodParsed] at hg
    rcases hg with htr | hcf | hdict
    · left
      unfold specScenes
      rw [hp]
      cases v <;> simp_all
    · by_cases htv : truthy v = true
      · left
        unfold specScenes
        rw [hp]
        cases v with
        | pyDict kvs =>
          simp only [pyContains, Except.ok.injEq] at hcf
          rw [any_iff_find] at hcf
          cases hfind : kvs.find? (fun kv => decide (kv.1 = "events")) with
          | none => simp [htv, hfind]
          | some kv => rw [hfind] at hcf; simp at hcf
        | pyNone => rfl
        | pyBool b => rfl
        | pyInt n => rfl
        | pyStr s => rfl
        | pyList xs => rfl
      · left
        unfold specScenes
        rw [hp]
        cases v <;> simp_all
    · obtain ⟨kvs, evs, k, rfl, hfind, hdicts⟩ := hdict
      right
      refine ⟨evs, hdicts, ?_⟩
      have hne : kvs ≠ [] := by
        intro h0
        subst h0
        simp [List.find?] at hfind
      have htv : truthy (PyVal.pyDict kvs) = true := by
        simp only [truthy, Bool.not_eq_true']
        simpa [List.isEmpty_iff] using hne
      unfold specScenes
      rw [hp]
      simp only []
      rw [if_pos htv]
      simp only [hfind]

/-- C10 counterexample: a response whose JSON parse is the string "events"
is truthy and contains the key events as a substring, and the subsequent
string indexing raises a TypeError that escapes extract_scenes_from_text,
so the function does not return a list for every chunking. -/
theorem claim_C10_counterexample :
    extract_scenes_from_text parseCE apiCE "w"
      = Except.error "TypeError: value is not subscriptable by a string key" := rfl

/-- C10 amended: when every parsed chunk response is falsy, lacks the key
events, or is a dict whose events entry is a list of dicts, the function
raises nothing and returns exactly the concatenation of the per-chunk event
lists, and every returned event carries the chunk_index of the chunk whose
response produced it. -/
theorem claim_C10_amended (parse : List Char → Option PyVal)
    (api : List ChatMsg → List Char) (text : String) (chunks : List Chunk)
    (hc : chunk_text text 800 100 = some chunks)
    (H : ∀ c ∈ chunks, goodParsed (try_parse_json parse (api (build_prompt c.text)))) :
    extract_scenes_from_text parse api text
        = Except.ok (chunks.flatMap (specScenes parse api))
    ∧ ∀ s ∈ chunks.flatMap (specScenes parse api), ∃ c ∈ chunks,
        s ∈ specScenes parse api c
        ∧ ∃ ekvs : List (String × PyVal), s = PyVal.pyDict ekvs
            ∧ ekvs.find? (fun kv => decide (kv.1 = "chunk_index"))
                = some ("chunk_index", PyVal.pyInt (c.chunk_index : Int)) := by
  constructor
  · unfold extract_scenes_from_text
    simp only [hc]
    exact extractLoop_good parse api chunks H
  · intro s hs
    rw [List.mem_flatMap] at hs
    obtain ⟨c, hcmem, hsc⟩ := hs
    refine ⟨c, hcmem, hsc, ?_⟩
    rcases specScenes_good parse api c (H c hcmem) with hnil | ⟨evs, hdicts, heq⟩
    · rw [hnil] at hsc
      simp at hsc
    · rw [heq] at hsc
      rw [List.mem_map] at hsc
      obtain ⟨e, hemem, rfl⟩ := hsc
      obtain ⟨ekvs, rfl⟩ := hdicts e hemem
      exact ⟨setKey "chunk_index" (PyVal.pyInt (c.chunk_index : Int)) ekvs, rfl,
        setKey_find "chunk_index" (PyVal.pyInt (c.chunk_index : Int)) ekvs⟩

theorem claim_C10_witness :
    extract_scenes_from_text parseCG apiCG "w"
      = Except.ok (([{ chunk_index := 0, start_word := 0, end_word := 1, text := "w" }] : List Chunk).flatMap (specScenes parseCG apiCG)) :=
  (claim_C10_amended parseCG apiCG "w"
    [{ chunk_index := 0, start_word := 0, end_word := 1, text := "w" }] rfl
    (by
      intro c hc
      have heq : try_parse_json parseCG (apiCG (build_prompt c.text))
          = some (PyVal.pyDict [("events", PyVal.pyList [PyVal.pyDict []])]) := rfl
      rw [heq]
      simp only [goodParsed]
      right
      right
      refine ⟨[("events", PyVal.pyList [PyVal.pyDict []])], [PyVal.pyDict []], "events",
        rfl, rfl, ?_⟩
      intro e he
      simp only [List.mem_singleton] at he
      exact ⟨[], he⟩)).1

end LCATS
